import Mathlib

/-!
Verification of the Doge_Bot grid-trading core against its specification.

The Python sources are shallowly embedded over ℚ (the code works with Python
floats and `Decimal`; we model the arithmetic exactly over the rationals and
keep every comparison threshold, e.g. `1e-12`, as the exact rational it
denotes).  Stateful functions are embedded as explicit state-passing
functions; exchange I/O is embedded as an oracle parameter describing the
outcome of each external call; `try/except` blocks become case splits on the
oracle outcome.
-/

namespace DogeBot

/-! ### profit_split.py -/

/-- State persisted in `split_state.json` (class `SplitState` in
`profit_split.py`; the schema-version, last-action and min-cost-cache fields
are bookkeeping not needed by any claim). -/
structure SplitState where
  split_accumulator_usd : ℚ
  bnb_pending_usd : ℚ
  reinvest_pool_usd : ℚ
  total_sent_to_bnb_usd : ℚ
  total_reinvested_usd : ℚ
  last_update_ts : ℚ
deriving Repr, DecidableEq

/-- The all-zero initial state (dataclass defaults). -/
def SplitState.zero : SplitState := ⟨0, 0, 0, 0, 0, 0⟩

/-- Module-level configuration constants `SPLIT_CHUNK_USD` and `SPLIT_RATIO`. -/
structure SplitConfig where
  chunk_size : ℚ
  split_ratio : ℚ
deriving Repr, DecidableEq

/-- Environment-variable defaults: chunk 4.0 USD, ratio 0.5. -/
def defaultSplitConfig : SplitConfig := ⟨4, 1/2⟩

/-- Return dictionary of `handle_realized_profit`. -/
structure SplitResult where
  chunks : ℤ
  bnb_bought_usd : ℚ
  reinvest_added_usd : ℚ
deriving Repr, DecidableEq

/-- Chunking step of `handle_realized_profit` (profit_split.py lines 227-257,
reached only when `profit_usd > 0`): add the profit to the accumulator, carve
out complete chunks, and route them to the BNB-pending and reinvest pools.
Returns the new state, the number of complete chunks, and the amount added to
the reinvest pool.  Python computes `int(acc // chunk)`, i.e. the floor of the
quotient. -/
def splitChunks (cfg : SplitConfig) (st : SplitState) (profit_usd : ℚ) :
    SplitState × ℤ × ℚ :=
  let acc := st.split_accumulator_usd + profit_usd
  let complete_chunks : ℤ := ⌊acc / cfg.chunk_size⌋
  let remainder := acc - complete_chunks * cfg.chunk_size
  if 0 < complete_chunks then
    let bnb_per_chunk := cfg.chunk_size * cfg.split_ratio
    let reinvest_per_chunk := cfg.chunk_size - bnb_per_chunk
    let total_to_bnb := bnb_per_chunk * complete_chunks
    let total_to_reinvest := reinvest_per_chunk * complete_chunks
    ({ st with
        split_accumulator_usd := remainder,
        bnb_pending_usd := st.bnb_pending_usd + total_to_bnb,
        reinvest_pool_usd := st.reinvest_pool_usd + total_to_reinvest },
      complete_chunks, total_to_reinvest)
  else
    ({ st with split_accumulator_usd := acc }, 0, 0)

/-- Outcome of `exchange_client.fetch_ticker` (a price, or an exception). -/
inductive TickerOutcome where
  | price (p : ℚ)
  | throw
deriving Repr, DecidableEq

/-- Outcome of `exchange_client.create_order` (success, or an exception). -/
inductive OrderOutcome where
  | ok
  | throw
deriving Repr, DecidableEq

/-- Oracle describing the exchange-side behaviour during one invocation of
`handle_realized_profit`: the value returned by `_get_minimum_cost`, the
ticker fetch outcome, the `amount_to_precision` rounding function, and the
`create_order` outcome. -/
structure ExchangeOracle where
  min_cost : ℚ
  ticker : TickerOutcome
  amount_to_precision : ℚ → ℚ
  create_order : OrderOutcome

/-- BNB-purchase step of `handle_realized_profit` (profit_split.py lines
259-296).  Returns the new state, the `bnb_bought_usd` result entry, and the
list of quantities passed to the `create_order` calls issued.  The whole
purchase is wrapped in `try/except`, so a ticker or order exception leaves
the state untouched. -/
def buyBnbStep (ex : ExchangeOracle) (st : SplitState) : SplitState × ℚ × List ℚ :=
  if ex.min_cost ≤ st.bnb_pending_usd then
    let usd_to_spend := st.bnb_pending_usd
    match ex.ticker with
    | .throw => (st, 0, [])
    | .price bnb_price =>
      let estimated_quantity := usd_to_spend / bnb_price
      let precise_quantity := ex.amount_to_precision estimated_quantity
      if 0 < precise_quantity then
        match ex.create_order with
        | .throw => (st, 0, [precise_quantity])
        | .ok =>
          ({ st with
              total_sent_to_bnb_usd := st.total_sent_to_bnb_usd + usd_to_spend,
              bnb_pending_usd := 0 },
            usd_to_spend, [precise_quantity])
      else (st, 0, [])
  else (st, 0, [])

/-- Observable outcome of one `handle_realized_profit` invocation:
the returned result dict, the final in-memory state, whether the final
`_save_state` at line 297 ran, and the market-buy orders issued. -/
structure HandleOutcome where
  result : SplitResult
  state : SplitState
  persisted : Bool
  orders_issued : List ℚ
deriving Repr

/-- `handle_realized_profit(profit_usd, exchange_client)` (profit_split.py
lines 208-298).  `now` is the value of `time.time()` stamped by `_save_state`.
If `profit_usd <= 0` the function returns the zero result immediately,
without touching or persisting the state; otherwise it runs the chunking
step, then the BNB-purchase step, and finally persists the state (the
`persisted` flag; `_save_state` sets `last_update_ts`). -/
def handle_realized_profit (cfg : SplitConfig) (ex : ExchangeOracle)
    (st : SplitState) (profit_usd : ℚ) (now : ℚ) : HandleOutcome :=
  if profit_usd ≤ 0 then
    ⟨⟨0, 0, 0⟩, st, false, []⟩
  else
    let step1 := splitChunks cfg st profit_usd
    let step2 := buyBnbStep ex step1.1
    ⟨⟨step1.2.1, step2.2.1, step1.2.2⟩,
      { step2.1 with last_update_ts := now }, true, step2.2.2⟩

/-- `pull_reinvestment_funds(max_amount_usd)` (profit_split.py lines 301-326).
Returns the amount pulled and the new state. -/
def pull_reinvestment_funds (st : SplitState) (max_amount_usd : ℚ) (now : ℚ) :
    ℚ × SplitState :=
  if max_amount_usd ≤ 0 then (0, st)
  else
    let amount_to_pull := min st.reinvest_pool_usd max_amount_usd
    if 0 < amount_to_pull then
      (amount_to_pull,
        { st with
            reinvest_pool_usd := st.reinvest_pool_usd - amount_to_pull,
            total_reinvested_usd := st.total_reinvested_usd + amount_to_pull,
            last_update_ts := now })
    else (amount_to_pull, st)

/-- Oracle used in concrete examples: minimum cost 10 USD (the fallback),
ticker price 600, identity precision rounding, orders succeed. -/
def exampleOracle : ExchangeOracle :=
  ⟨10, .price 600, fun q => q, .ok⟩

/-- Evaluation of the floor needed by the 8.5-USD example. -/
theorem floor_17_8 : (⌊(17 : ℚ) / 8⌋ : ℤ) = 2 := by
  rw [Int.floor_eq_iff]
  norm_num

/-- Concrete run of `handle_realized_profit` on the spec example: profit
8.5 USD against the zero state, chunk 4.0, ratio 0.5, minimum cost 10. -/
theorem handle_example :
    handle_realized_profit defaultSplitConfig exampleOracle SplitState.zero
        (17/2) 0 =
      ⟨⟨2, 0, 4⟩, ⟨1/2, 4, 4, 0, 0, 0⟩, true, []⟩ := by
  have h1 : ((0 : ℚ) + 17/2) / (4 : ℚ) = 17/8 := by norm_num
  simp only [handle_realized_profit, splitChunks, buyBnbStep, exampleOracle,
    defaultSplitConfig, SplitState.zero, h1, floor_17_8]
  norm_num

/-- C1: for `profit_usd > 0` the accumulator is first increased by the
profit; `chunks` is the floor of the accumulated total divided by the chunk
size; when `chunks > 0` the result reports that chunk count, the BNB-pending
pool grows by `chunks * chunk * ratio`, the reinvest pool by
`chunks * chunk * (1-ratio)`, and the accumulator becomes the remainder; in
every case the resulting accumulator is `< chunk`.  Feeding 8.5 USD into the
zero state with chunk 4.0 and ratio 0.5 yields 2 chunks, +4.0 to each pool,
accumulator 0.5 (and no BNB purchase, 4 being below the 10 USD minimum). -/
theorem splitChunks_spec (cfg : SplitConfig) (st : SplitState) (profit_usd : ℚ)
    (hchunk : 0 < cfg.chunk_size) (hprofit : 0 < profit_usd) :
    (0 < ⌊(st.split_accumulator_usd + profit_usd) / cfg.chunk_size⌋ →
        (splitChunks cfg st profit_usd).2.1 =
          ⌊(st.split_accumulator_usd + profit_usd) / cfg.chunk_size⌋
        ∧ (splitChunks cfg st profit_usd).1.bnb_pending_usd =
          st.bnb_pending_usd +
            ⌊(st.split_accumulator_usd + profit_usd) / cfg.chunk_size⌋ *
              cfg.chunk_size * cfg.split_ratio
        ∧ (splitChunks cfg st profit_usd).1.reinvest_pool_usd =
          st.reinvest_pool_usd +
            ⌊(st.split_accumulator_usd + profit_usd) / cfg.chunk_size⌋ *
              cfg.chunk_size * (1 - cfg.split_ratio)
        ∧ (splitChunks cfg st profit_usd).1.split_accumulator_usd =
          (st.split_accumulator_usd + profit_usd) -
            ⌊(st.split_accumulator_usd + profit_usd) / cfg.chunk_size⌋ *
              cfg.chunk_size)
    ∧ (splitChunks cfg st profit_usd).1.split_accumulator_usd < cfg.chunk_size
    ∧ handle_realized_profit defaultSplitConfig exampleOracle SplitState.zero
        (17/2) 0 =
      ⟨⟨2, 0, 4⟩, ⟨1/2, 4, 4, 0, 0, 0⟩, true, []⟩ := by
  have hrem_lt : st.split_accumulator_usd + profit_usd -
      (⌊(st.split_accumulator_usd + profit_usd) / cfg.chunk_size⌋ : ℚ) *
        cfg.chunk_size < cfg.chunk_size := by
    have h1 : Int.fract ((st.split_accumulator_usd + profit_usd) / cfg.chunk_size) < 1 :=
      Int.fract_lt_one _
    have h2 : st.split_accumulator_usd + profit_usd -
        (⌊(st.split_accumulator_usd + profit_usd) / cfg.chunk_size⌋ : ℚ) *
          cfg.chunk_size =
        cfg.chunk_size *
          Int.fract ((st.split_accumulator_usd + profit_usd) / cfg.chunk_size) := by
      rw [Int.fract]
      field_simp
      ring
    rw [h2]
    calc cfg.chunk_size *
          Int.fract ((st.split_accumulator_usd + profit_usd) / cfg.chunk_size)
        < cfg.chunk_size * 1 := mul_lt_mul_of_pos_left h1 hchunk
      _ = cfg.chunk_size := mul_one _
  by_cases hpos : 0 < ⌊(st.split_accumulator_usd + profit_usd) / cfg.chunk_size⌋
  · have heq : splitChunks cfg st profit_usd =
        ({ st with
            split_accumulator_usd := st.split_accumulator_usd + profit_usd -
              ⌊(st.split_accumulator_usd + profit_usd) / cfg.chunk_size⌋ *
                cfg.chunk_size,
            bnb_pending_usd := st.bnb_pending_usd +
              cfg.chunk_size * cfg.split_ratio *
                ⌊(st.split_accumulator_usd + profit_usd) / cfg.chunk_size⌋,
            reinvest_pool_usd := st.reinvest_pool_usd +
              (cfg.chunk_size - cfg.chunk_size * cfg.split_ratio) *
                ⌊(st.split_accumulator_usd + profit_usd) / cfg.chunk_size⌋ },
          ⌊(st.split_accumulator_usd + profit_usd) / cfg.chunk_size⌋,
          (cfg.chunk_size - cfg.chunk_size * cfg.split_ratio) *
            ⌊(st.split_accumulator_usd + profit_usd) / cfg.chunk_size⌋) := by
      simp only [splitChunks]
      rw [if_pos hpos]
    rw [heq]
    refine ⟨fun _ => ⟨rfl, by ring, by ring, by ring⟩, ?_, handle_example⟩
    exact hrem_lt
  · have heq : splitChunks cfg st profit_usd =
        ({ st with
            split_accumulator_usd := st.split_accumulator_usd + profit_usd },
          0, 0) := by
      simp only [splitChunks]
      rw [if_neg hpos]
    rw [heq]
    refine ⟨fun h => absurd h hpos, ?_, handle_example⟩
    have hle : ⌊(st.split_accumulator_usd + profit_usd) / cfg.chunk_size⌋ ≤ 0 :=
      not_lt.mp hpos
    have hlt1 : (st.split_accumulator_usd + profit_usd) / cfg.chunk_size < 1 := by
      calc (st.split_accumulator_usd + profit_usd) / cfg.chunk_size
          < ⌊(st.split_accumulator_usd + profit_usd) / cfg.chunk_size⌋ + 1 :=
            Int.lt_floor_add_one _
        _ ≤ 0 + 1 := by
            have hle2 : ((⌊(st.split_accumulator_usd + profit_usd) /
                cfg.chunk_size⌋ : ℤ) : ℚ) ≤ 0 := by exact_mod_cast hle
            linarith
        _ = 1 := by ring
    simpa using (div_lt_one hchunk).mp hlt1

/-- Witness for C1 at chunk 4, ratio 0.5, zero state, profit 8.5. -/
theorem splitChunks_spec_witness :
    (0 < ⌊((SplitState.zero.split_accumulator_usd + 17/2) /
          defaultSplitConfig.chunk_size : ℚ)⌋ →
        (splitChunks defaultSplitConfig SplitState.zero (17/2)).2.1 =
          ⌊((SplitState.zero.split_accumulator_usd + 17/2) /
            defaultSplitConfig.chunk_size : ℚ)⌋
        ∧ (splitChunks defaultSplitConfig SplitState.zero (17/2)).1.bnb_pending_usd =
          SplitState.zero.bnb_pending_usd +
            ⌊((SplitState.zero.split_accumulator_usd + 17/2) /
              defaultSplitConfig.chunk_size : ℚ)⌋ *
              defaultSplitConfig.chunk_size * defaultSplitConfig.split_ratio
        ∧ (splitChunks defaultSplitConfig SplitState.zero (17/2)).1.reinvest_pool_usd =
          SplitState.zero.reinvest_pool_usd +
            ⌊((SplitState.zero.split_accumulator_usd + 17/2) /
              defaultSplitConfig.chunk_size : ℚ)⌋ *
              defaultSplitConfig.chunk_size * (1 - defaultSplitConfig.split_ratio)
        ∧ (splitChunks defaultSplitConfig SplitState.zero (17/2)).1.split_accumulator_usd =
          (SplitState.zero.split_accumulator_usd + 17/2) -
            ⌊((SplitState.zero.split_accumulator_usd + 17/2) /
              defaultSplitConfig.chunk_size : ℚ)⌋ * defaultSplitConfig.chunk_size)
    ∧ (splitChunks defaultSplitConfig SplitState.zero (17/2)).1.split_accumulator_usd <
        defaultSplitConfig.chunk_size
    ∧ handle_realized_profit defaultSplitConfig exampleOracle SplitState.zero
        (17/2) 0 =
      ⟨⟨2, 0, 4⟩, ⟨1/2, 4, 4, 0, 0, 0⟩, true, []⟩ :=
  splitChunks_spec defaultSplitConfig SplitState.zero (17/2)
    (by norm_num [defaultSplitConfig]) (by norm_num)

/-- The splitChunks run underlying the 8.5-USD example. -/
theorem splitChunks_example :
    splitChunks defaultSplitConfig SplitState.zero (17/2) =
      (⟨1/2, 4, 4, 0, 0, 0⟩, 2, 4) := by
  have h1 : ((0 : ℚ) + 17/2) / (4 : ℚ) = 17/8 := by norm_num
  simp only [splitChunks, defaultSplitConfig, SplitState.zero, h1, floor_17_8]
  norm_num

/-- Oracle used for the C6 witness: minimum cost 2 USD, price 1, identity
precision rounding, order succeeds. -/
def c6Oracle : ExchangeOracle := ⟨2, .price 1, fun q => q, .ok⟩

/-- C6: within an invocation of `handle_realized_profit` with positive
profit, whenever the pending pool (after chunking) reaches the minimum cost
and the ticker and precision calls go through, exactly one market buy is
issued, sized from the full pending amount; on success `total_sent_to_bnb_usd`
grows by that amount and the pending pool resets to 0; if `create_order`
raises, both fields are left unchanged for retry. -/
theorem handle_bnb_purchase (cfg : SplitConfig) (ex : ExchangeOracle)
    (st : SplitState) (profit_usd now price : ℚ)
    (hp : 0 < profit_usd) (ht : ex.ticker = .price price)
    (hpend : ex.min_cost ≤ (splitChunks cfg st profit_usd).1.bnb_pending_usd)
    (hqty : 0 < ex.amount_to_precision
        ((splitChunks cfg st profit_usd).1.bnb_pending_usd / price)) :
    (handle_realized_profit cfg ex st profit_usd now).orders_issued =
        [ex.amount_to_precision
          ((splitChunks cfg st profit_usd).1.bnb_pending_usd / price)]
    ∧ (ex.create_order = .ok →
        (handle_realized_profit cfg ex st profit_usd now).state.total_sent_to_bnb_usd =
          (splitChunks cfg st profit_usd).1.total_sent_to_bnb_usd +
            (splitChunks cfg st profit_usd).1.bnb_pending_usd
        ∧ (handle_realized_profit cfg ex st profit_usd now).state.bnb_pending_usd = 0
        ∧ (handle_realized_profit cfg ex st profit_usd now).result.bnb_bought_usd =
          (splitChunks cfg st profit_usd).1.bnb_pending_usd)
    ∧ (ex.create_order = .throw →
        (handle_realized_profit cfg ex st profit_usd now).state.bnb_pending_usd =
          (splitChunks cfg st profit_usd).1.bnb_pending_usd
        ∧ (handle_realized_profit cfg ex st profit_usd now).state.total_sent_to_bnb_usd =
          (splitChunks cfg st profit_usd).1.total_sent_to_bnb_usd
        ∧ (handle_realized_profit cfg ex st profit_usd now).result.bnb_bought_usd = 0) := by
  have hnp : ¬ profit_usd ≤ 0 := not_le.mpr hp
  cases hco : ex.create_order <;>
    simp only [handle_realized_profit, buyBnbStep, hnp, ht, hco, if_neg,
      if_false, ite_false, if_pos hpend, if_pos hqty] <;>
    simp_all

/-- Witness for C6: profit 8.5 into the zero state leaves 4 USD pending,
above the 2 USD minimum; price 1 gives quantity 4; the order succeeds. -/
theorem handle_bnb_purchase_witness :
    (handle_realized_profit defaultSplitConfig c6Oracle SplitState.zero
        (17/2) 0).orders_issued =
      [c6Oracle.amount_to_precision
        ((splitChunks defaultSplitConfig SplitState.zero (17/2)).1.bnb_pending_usd / 1)]
    ∧ (c6Oracle.create_order = .ok →
        (handle_realized_profit defaultSplitConfig c6Oracle SplitState.zero
            (17/2) 0).state.total_sent_to_bnb_usd =
          (splitChunks defaultSplitConfig SplitState.zero
              (17/2)).1.total_sent_to_bnb_usd +
            (splitChunks defaultSplitConfig SplitState.zero (17/2)).1.bnb_pending_usd
        ∧ (handle_realized_profit defaultSplitConfig c6Oracle SplitState.zero
            (17/2) 0).state.bnb_pending_usd = 0
        ∧ (handle_realized_profit defaultSplitConfig c6Oracle SplitState.zero
            (17/2) 0).result.bnb_bought_usd =
          (splitChunks defaultSplitConfig SplitState.zero (17/2)).1.bnb_pending_usd)
    ∧ (c6Oracle.create_order = .throw →
        (handle_realized_profit defaultSplitConfig c6Oracle SplitState.zero
            (17/2) 0).state.bnb_pending_usd =
          (splitChunks defaultSplitConfig SplitState.zero (17/2)).1.bnb_pending_usd
        ∧ (handle_realized_profit defaultSplitConfig c6Oracle SplitState.zero
            (17/2) 0).state.total_sent_to_bnb_usd =
          (splitChunks defaultSplitConfig SplitState.zero
              (17/2)).1.total_sent_to_bnb_usd
        ∧ (handle_realized_profit defaultSplitConfig c6Oracle SplitState.zero
            (17/2) 0).result.bnb_bought_usd = 0) :=
  handle_bnb_purchase defaultSplitConfig c6Oracle SplitState.zero (17/2) 0 1
    (by norm_num) rfl
    (by rw [splitChunks_example]; norm_num [c6Oracle])
    (by rw [splitChunks_example]; norm_num [c6Oracle])

/-- C8 counterexample: an invocation with `profit_usd = 0` returns
immediately; the state is NOT persisted (no `_save_state` call, so
`last_update_ts` is not refreshed), contradicting the claim that the state
is persisted after every invocation including those with non-positive
profit. -/
theorem handle_zero_profit_not_persisted :
    (handle_realized_profit defaultSplitConfig exampleOracle SplitState.zero
        0 5).persisted = false
    ∧ (handle_realized_profit defaultSplitConfig exampleOracle SplitState.zero
        0 5).state = SplitState.zero
    ∧ (handle_realized_profit defaultSplitConfig exampleOracle SplitState.zero
        0 5).state.last_update_ts ≠ 5 := by
  refine ⟨?_, ?_, ?_⟩ <;> simp [handle_realized_profit, SplitState.zero]

/-- C8 (amended): `handle_realized_profit` persists the state (refreshing
`last_update_ts`) after every invocation with positive profit — even when no
complete chunk is produced — while an invocation with `profit_usd ≤ 0`
returns the zero result immediately, leaving the state untouched and
unpersisted. -/
theorem handle_persists_iff (cfg : SplitConfig) (ex : ExchangeOracle)
    (st : SplitState) (profit_usd now : ℚ) :
    (0 < profit_usd →
        (handle_realized_profit cfg ex st profit_usd now).persisted = true
        ∧ (handle_realized_profit cfg ex st profit_usd now).state.last_update_ts = now)
    ∧ (profit_usd ≤ 0 →
        (handle_realized_profit cfg ex st profit_usd now).persisted = false
        ∧ (handle_realized_profit cfg ex st profit_usd now).state = st
        ∧ (handle_realized_profit cfg ex st profit_usd now).result = ⟨0, 0, 0⟩) := by
  constructor
  · intro hp
    have hnp : ¬ profit_usd ≤ 0 := not_le.mpr hp
    simp [handle_realized_profit, hnp]
  · intro hle
    simp [handle_realized_profit, hle]

/-- Witness for C8 at profit 1 (persisted) and profit 0 (not persisted). -/
theorem handle_persists_iff_witness :
    ((handle_realized_profit defaultSplitConfig exampleOracle SplitState.zero
        1 7).persisted = true
      ∧ (handle_realized_profit defaultSplitConfig exampleOracle SplitState.zero
          1 7).state.last_update_ts = 7)
    ∧ ((handle_realized_profit defaultSplitConfig exampleOracle SplitState.zero
        0 7).persisted = false
      ∧ (handle_realized_profit defaultSplitConfig exampleOracle SplitState.zero
          0 7).state = SplitState.zero
      ∧ (handle_realized_profit defaultSplitConfig exampleOracle SplitState.zero
          0 7).result = ⟨0, 0, 0⟩) :=
  ⟨(handle_persists_iff defaultSplitConfig exampleOracle SplitState.zero 1 7).1
      (by norm_num),
    (handle_persists_iff defaultSplitConfig exampleOracle SplitState.zero 0 7).2
      (by norm_num)⟩

/-! ### main.py: trading state, rounding helpers, order-lifecycle tracker -/

/-- Fill data recorded in `buy_fills` / `sell_fills` (price and amount). -/
structure Fill where
  price : ℚ
  amount : ℚ
deriving Repr, DecidableEq

/-- The trading state persisted in `state.json` (`load_trading_state` in
main.py).  `processed_buys` is a JSON list (appended to); the three maps are
JSON dicts, modelled as association lists in insertion order. -/
structure TradingState where
  processed_buys : List String
  child_sells : List (String × String)
  buy_fills : List (String × Fill)
  sell_fills : List (String × Fill)
  realized_profit_usd : ℚ
deriving Repr, DecidableEq

/-- An exchange order as consumed by the fill handlers.  `filled` and
`average` are the values of `order.get("filled") or order.get("amount")`
and `order.get("average") or order.get("price")` respectively. -/
structure Order where
  id : String
  symbol : String
  side : String
  status : String
  filled : ℚ
  average : ℚ
deriving Repr, DecidableEq

/-- Python dict assignment `d[k] = v` on an insertion-ordered dict. -/
def setEntry {α : Type} (k : String) (v : α) (l : List (String × α)) :
    List (String × α) :=
  if l.any (fun e => e.1 == k) then
    l.map (fun e => if e.1 == k then (k, v) else e)
  else l ++ [(k, v)]

/-- Number of entries under key `k` (a dict always has 0 or 1). -/
def keyCount {α : Type} (k : String) (l : List (String × α)) : ℕ :=
  l.countP (fun e => e.1 == k)

/-- `round_price_down(price, tick_size)` (main.py lines 227-241): floor to a
multiple of the tick.  The trailing `quantize(..., ROUND_HALF_UP)` only
normalises the decimal exponent of an exact multiple, so it is the
identity on the value. -/
def round_price_down (price tick_size : ℚ) : ℚ :=
  if tick_size ≤ 0 then price else ⌊price / tick_size⌋ * tick_size

/-- `round_amount_down(amount, step_size)` (main.py lines 244-258). -/
def round_amount_down (amount step_size : ℚ) : ℚ :=
  if step_size ≤ 0 then amount else ⌊amount / step_size⌋ * step_size

/-- Market metadata extracted by `load_market_precision`. -/
structure MarketInfo where
  price_tick : ℚ
  amount_step : ℚ
  min_cost : ℚ
deriving Repr

/-- Bot configuration constants used by the fill handlers. -/
structure BotConfig where
  grid_step_pct : ℚ
  fee_buffer : ℚ
deriving Repr

/-- Outcome of one `place_limit_sell_order` call: the new order id, or an
exception from `create_order`. -/
inductive PlaceResult where
  | ok (order_id : String)
  | throw
deriving Repr, DecidableEq

/-- Sell target price for a filled buy (main.py lines 523-526):
`fillPrice * (1 + stepPct/100)` rounded down to the tick. -/
def sellTargetPrice (cfg : BotConfig) (mkt : MarketInfo) (o : Order) : ℚ :=
  round_price_down (o.average * (1 + cfg.grid_step_pct / 100)) mkt.price_tick

/-- Sell quantity for a filled buy (main.py lines 528-539): shave the fee
buffer, round down, then rescale up if below the minimum notional. -/
def sellQuantity (cfg : BotConfig) (mkt : MarketInfo) (o : Order) : ℚ :=
  let target_price := sellTargetPrice cfg mkt o
  let sq := round_amount_down (o.filled * (1 - cfg.fee_buffer)) mkt.amount_step
  if sq * target_price < mkt.min_cost then
    round_amount_down ((mkt.min_cost / target_price) * (1 + cfg.fee_buffer))
      mkt.amount_step
  else sq

/-- Processing of a single order by `_process_filled_buy_orders` (main.py
lines 500-560).  `place` is the outcome of the `place_limit_sell_order`
call.  Returns the new trading state and the number of sell orders placed.
The state mutations happen inside the `try` after a successful placement;
a placement exception is caught and leaves the state untouched. -/
def processBuyOrder (cfg : BotConfig) (mkt : MarketInfo) (symbol : String)
    (place : PlaceResult) (st : TradingState) (o : Order) : TradingState × ℕ :=
  if o.symbol ≠ symbol ∨ o.side ≠ "buy" ∨ o.status ≠ "closed" then (st, 0)
  else if o.id ∈ st.processed_buys then (st, 0)
  else if o.filled ≤ 0 ∨ o.average ≤ 0 then (st, 0)
  else if sellQuantity cfg mkt o ≤ 0 then (st, 0)
  else
    match place with
    | .throw => (st, 0)
    | .ok sell_order_id =>
      ({ st with
          processed_buys := st.processed_buys ++ [o.id],
          child_sells := setEntry o.id sell_order_id st.child_sells,
          buy_fills := setEntry o.id ⟨o.average, o.filled⟩ st.buy_fills },
        1)

/-- Whether the `profit_split` module shipped in this repository exposes an
`on_realized_profit` attribute.  `src/profit_split.py` defines
`handle_realized_profit`, `pull_reinvestment_funds`, `get_current_state` and
`main` — there is no `on_realized_profit` anywhere in the repository, so the
`hasattr` guard in main.py line 614 is always false. -/
def profit_split_has_on_realized_profit : Bool := false

/-- Processing of a single order by `_process_filled_sell_orders` (main.py
lines 563-619).  `has_hook` is the value of
`profit_split and hasattr(profit_split, "on_realized_profit")`.  Returns the
new trading state and the list of profit amounts passed to the splitter. -/
def processSellOrder (symbol : String) (has_hook : Bool) (st : TradingState)
    (o : Order) : TradingState × List ℚ :=
  if o.symbol ≠ symbol ∨ o.side ≠ "sell" ∨ o.status ≠ "closed" then (st, [])
  else if st.sell_fills.any (fun e => e.1 == o.id) then (st, [])
  else if o.filled ≤ 0 ∨ o.average ≤ 0 then (st, [])
  else
    let parent := st.child_sells.find? (fun e => e.2 == o.id)
    let profit : ℚ :=
      match parent with
      | none => 0
      | some pe =>
        if pe.1 = "" then 0
        else
          match st.buy_fills.find? (fun e => e.1 == pe.1) with
          | none => 0
          | some be => (o.average - be.2.price) * min o.filled be.2.amount
    let st1 := { st with sell_fills := setEntry o.id ⟨o.average, o.filled⟩ st.sell_fills }
    if 0 < profit then
      let st2 := { st1 with realized_profit_usd := st1.realized_profit_usd + profit }
      if has_hook then (st2, [profit]) else (st2, [])
    else (st1, [])

/-- A dict assignment under a key not yet present appends the new entry. -/
theorem setEntry_of_keyCount_zero {α : Type} (k : String) (v : α)
    (l : List (String × α)) (h : keyCount k l = 0) :
    setEntry k v l = l ++ [(k, v)] := by
  have hany : l.any (fun e => e.1 == k) = false := by
    rw [List.any_eq_false]
    intro x hx
    simpa using List.countP_eq_zero.mp h x hx
  simp [setEntry, hany]

/-- keyCount distributes over append. -/
theorem keyCount_append {α : Type} (k : String) (l₁ l₂ : List (String × α)) :
    keyCount k (l₁ ++ l₂) = keyCount k l₁ + keyCount k l₂ :=
  List.countP_append _ _ _

/-- keyCount of the one-entry dict with the same key. -/
theorem keyCount_single {α : Type} (k : String) (v : α) :
    keyCount k [(k, v)] = 1 := by
  simp [keyCount, List.countP_cons]

/-- C2: the buy-fill handler is idempotent.  A successfully processed buy
(matching symbol/side/status, not yet in `processed_buys`, with positive
fill data and a positive sell quantity, whose sell placement succeeds)
places exactly one sell, and afterwards exactly one `processed_buys` entry,
one `child_sells` entry and one `buy_fills` entry exist for that buy id;
re-processing the same order — with any placement outcome — is a no-op
(state unchanged, no sell placed), no matter how many polls repeat it. -/
theorem buy_fill_idempotent (cfg : BotConfig) (mkt : MarketInfo)
    (symbol sid : String) (place2 : PlaceResult) (st0 : TradingState) (o : Order)
    (hsym : o.symbol = symbol) (hside : o.side = "buy")
    (hstatus : o.status = "closed")
    (hnp : o.id ∉ st0.processed_buys)
    (hcs : keyCount o.id st0.child_sells = 0)
    (hbf : keyCount o.id st0.buy_fills = 0)
    (hfa : 0 < o.filled) (hav : 0 < o.average)
    (hq : 0 < sellQuantity cfg mkt o) :
    (processBuyOrder cfg mkt symbol (.ok sid) st0 o).2 = 1
    ∧ processBuyOrder cfg mkt symbol place2
        (processBuyOrder cfg mkt symbol (.ok sid) st0 o).1 o =
      ((processBuyOrder cfg mkt symbol (.ok sid) st0 o).1, 0)
    ∧ (processBuyOrder cfg mkt symbol (.ok sid) st0 o).1.processed_buys.count o.id = 1
    ∧ keyCount o.id (processBuyOrder cfg mkt symbol (.ok sid) st0 o).1.child_sells = 1
    ∧ keyCount o.id (processBuyOrder cfg mkt symbol (.ok sid) st0 o).1.buy_fills = 1
    ∧ ∀ k : ℕ, (fun s => (processBuyOrder cfg mkt symbol place2 s o).1)^[k]
        (processBuyOrder cfg mkt symbol (.ok sid) st0 o).1 =
      (processBuyOrder cfg mkt symbol (.ok sid) st0 o).1 := by
  have hc1 : ¬(o.symbol ≠ symbol ∨ o.side ≠ "buy" ∨ o.status ≠ "closed") := by
    simp [hsym, hside, hstatus]
  have hc3 : ¬(o.filled ≤ 0 ∨ o.average ≤ 0) := by
    simp only [not_or, not_le]
    exact ⟨hfa, hav⟩
  have hc4 : ¬(sellQuantity cfg mkt o ≤ 0) := not_le.mpr hq
  have heq : processBuyOrder cfg mkt symbol (.ok sid) st0 o =
      ({ st0 with
          processed_buys := st0.processed_buys ++ [o.id],
          child_sells := setEntry o.id sid st0.child_sells,
          buy_fills := setEntry o.id ⟨o.average, o.filled⟩ st0.buy_fills },
        1) := by
    simp only [processBuyOrder]
    rw [if_neg hc1, if_neg hnp, if_neg hc3, if_neg hc4]
  rw [heq]
  have hmem : o.id ∈ st0.processed_buys ++ [o.id] :=
    List.mem_append_right _ (List.mem_singleton.mpr rfl)
  have heq2 : processBuyOrder cfg mkt symbol place2
      ({ st0 with
          processed_buys := st0.processed_buys ++ [o.id],
          child_sells := setEntry o.id sid st0.child_sells,
          buy_fills := setEntry o.id ⟨o.average, o.filled⟩ st0.buy_fills }) o =
      ({ st0 with
          processed_buys := st0.processed_buys ++ [o.id],
          child_sells := setEntry o.id sid st0.child_sells,
          buy_fills := setEntry o.id ⟨o.average, o.filled⟩ st0.buy_fills },
        0) := by
    simp only [processBuyOrder]
    rw [if_neg hc1, if_pos hmem]
  refine ⟨rfl, heq2, ?_, ?_, ?_, ?_⟩
  · simp [List.count_append, List.count_eq_zero.mpr hnp]
  · rw [setEntry_of_keyCount_zero _ _ _ hcs, keyCount_append, hcs, keyCount_single]
  · rw [setEntry_of_keyCount_zero _ _ _ hbf, keyCount_append, hbf, keyCount_single]
  · intro k
    exact Function.iterate_fixed (congrArg Prod.fst heq2) k

/-- Witness for C2: a fresh filled buy `b1` on the empty state, sell placed
as `s1`, re-processed once with a throwing placement. -/
theorem buy_fill_idempotent_witness :
    (processBuyOrder ⟨1, 1/1000⟩ ⟨1/100000, 1, 1⟩ "D" (.ok "s1")
        ⟨[], [], [], [], 0⟩ ⟨"b1", "D", "buy", "closed", 100, 1/5⟩).2 = 1
    ∧ processBuyOrder ⟨1, 1/1000⟩ ⟨1/100000, 1, 1⟩ "D" .throw
        (processBuyOrder ⟨1, 1/1000⟩ ⟨1/100000, 1, 1⟩ "D" (.ok "s1")
          ⟨[], [], [], [], 0⟩ ⟨"b1", "D", "buy", "closed", 100, 1/5⟩).1
        ⟨"b1", "D", "buy", "closed", 100, 1/5⟩ =
      ((processBuyOrder ⟨1, 1/1000⟩ ⟨1/100000, 1, 1⟩ "D" (.ok "s1")
          ⟨[], [], [], [], 0⟩ ⟨"b1", "D", "buy", "closed", 100, 1/5⟩).1, 0)
    ∧ (processBuyOrder ⟨1, 1/1000⟩ ⟨1/100000, 1, 1⟩ "D" (.ok "s1")
        ⟨[], [], [], [], 0⟩
        ⟨"b1", "D", "buy", "closed", 100, 1/5⟩).1.processed_buys.count "b1" = 1
    ∧ keyCount "b1" (processBuyOrder ⟨1, 1/1000⟩ ⟨1/100000, 1, 1⟩ "D" (.ok "s1")
        ⟨[], [], [], [], 0⟩ ⟨"b1", "D", "buy", "closed", 100, 1/5⟩).1.child_sells = 1
    ∧ keyCount "b1" (processBuyOrder ⟨1, 1/1000⟩ ⟨1/100000, 1, 1⟩ "D" (.ok "s1")
        ⟨[], [], [], [], 0⟩ ⟨"b1", "D", "buy", "closed", 100, 1/5⟩).1.buy_fills = 1
    ∧ ∀ k : ℕ, (fun s => (processBuyOrder ⟨1, 1/1000⟩ ⟨1/100000, 1, 1⟩ "D" .throw
          s ⟨"b1", "D", "buy", "closed", 100, 1/5⟩).1)^[k]
        (processBuyOrder ⟨1, 1/1000⟩ ⟨1/100000, 1, 1⟩ "D" (.ok "s1")
          ⟨[], [], [], [], 0⟩ ⟨"b1", "D", "buy", "closed", 100, 1/5⟩).1 =
      (processBuyOrder ⟨1, 1/1000⟩ ⟨1/100000, 1, 1⟩ "D" (.ok "s1")
        ⟨[], [], [], [], 0⟩ ⟨"b1", "D", "buy", "closed", 100, 1/5⟩).1 :=
  buy_fill_idempotent ⟨1, 1/1000⟩ ⟨1/100000, 1, 1⟩ "D" "s1" .throw
    ⟨[], [], [], [], 0⟩ ⟨"b1", "D", "buy", "closed", 100, 1/5⟩
    rfl rfl rfl (by simp) (by simp [keyCount]) (by simp [keyCount])
    (by norm_num) (by norm_num) (by norm_num [sellQuantity, sellTargetPrice,
      round_amount_down, round_price_down])

/-- C7: a failing sell placement leaves the trading state unchanged for that
buy — no `processed_buys`, `child_sells` or `buy_fills` entry is created and
no sell is recorded as placed, so the same filled buy is selected again on
the next poll. -/
theorem sell_place_failure_no_mutation (cfg : BotConfig) (mkt : MarketInfo)
    (symbol : String) (st : TradingState) (o : Order) :
    processBuyOrder cfg mkt symbol .throw st o = (st, 0) := by
  simp only [processBuyOrder]
  split_ifs <;> rfl

/-- Trading state for the C5 failing input: buy `b1` filled at price 100,
amount 1, paired with child sell `s1`. -/
def c5State : TradingState :=
  ⟨["b1"], [("b1", "s1")], [("b1", ⟨100, 1⟩)], [], 0⟩

/-- The C5 failing input: child sell `s1` comes back filled at 120. -/
def c5Sell : Order := ⟨"s1", "D", "sell", "closed", 1, 120⟩

/-- C5 failing-input evaluation: the filled sell `s1` has profit
`(120 - 100) * min 1 1 = 20 > 0`, and the handler records the fill and adds
the profit to `realized_profit_usd`; but because `src/profit_split.py`
exposes no `on_realized_profit` attribute, the `hasattr` guard of main.py
line 614 is false and nothing is ever emitted to the ProfitSplitter,
contradicting the claimed "emits if and only if profit > 0". -/
theorem sell_profit_not_emitted :
    profit_split_has_on_realized_profit = false
    ∧ processSellOrder "D" profit_split_has_on_realized_profit c5State c5Sell =
      (⟨["b1"], [("b1", "s1")], [("b1", ⟨100, 1⟩)], [("s1", ⟨120, 1⟩)], 20⟩, [])
    ∧ (0 : ℚ) < 20
    ∧ processSellOrder "D" true c5State c5Sell =
      (⟨["b1"], [("b1", "s1")], [("b1", ⟨100, 1⟩)], [("s1", ⟨120, 1⟩)], 20⟩, [20]) := by
  refine ⟨rfl, ?_, by norm_num, ?_⟩ <;>
    simp [processSellOrder, profit_split_has_on_realized_profit, c5State,
      c5Sell, setEntry, List.find?, min_def] <;>
    norm_num

/-! ### Grid level generation: grid_engine.geom_levels and
main.compute_grid_levels -/

/-- The generation loop shared by `geom_levels` (grid_engine.py) and
`compute_grid_levels` (main.py): while `p ≤ bound`, append `p` and multiply
it by `f`.  The fuel argument counts the appends still allowed: for
`geom_levels` it is the hard cap (the Python loop breaks after the append
that makes `len(lvls) > 5000`, so 5001 appends can happen); for
`compute_grid_levels`, which has no cap, the fuel is chosen large enough
that the loop always ends because the condition fails (see `gridFuel`), so
the bounded recursion coincides with the unbounded `while`. -/
def growLevels (f bound : ℚ) : ℕ → ℚ → List ℚ
  | 0, _ => []
  | n + 1, p => if p ≤ bound then p :: growLevels f bound n (p * f) else []

/-- `geom_levels(lower, upper, spacing_pct)` (grid_engine.py lines 1-9):
tolerance factor `1 + 1e-9` on the upper bound, iteration capped after
5001 appended levels. -/
def geom_levels (lower upper spacing_pct : ℚ) : List ℚ :=
  growLevels (1 + spacing_pct / 100) (upper * (1 + 1/10^9)) 5001 lower

/-- For `0 < low` and `1 < f` the level sequence eventually exceeds any
bound, so the `compute_grid_levels` while-loop terminates. -/
theorem grid_loop_terminates {low f : ℚ} (bound : ℚ) (hl : 0 < low)
    (hf : 1 < f) : ∃ n : ℕ, bound < low * f ^ n := by
  obtain ⟨n, hn⟩ := pow_unbounded_of_one_lt (bound / low) hf
  refine ⟨n, ?_⟩
  calc bound < f ^ n * low := (div_lt_iff hl).mp hn
    _ = low * f ^ n := mul_comm _ _

/-- Fuel sufficient for the `compute_grid_levels` loop to end by condition
failure: the least `n` with `bound < low * f ^ n`. -/
def gridFuel (low f bound : ℚ) : ℕ :=
  if h : 0 < low ∧ 1 < f then Nat.find (grid_loop_terminates bound h.1 h.2)
  else 0

/-- `compute_grid_levels(low_price, high_price, step_percent)` (main.py
lines 353-382): validate the bounds, run the multiplication loop with
tolerance `1e-18` above the high bound, then append `high_price` exactly
when the last generated level is below it.  (With the validations the loop
output is never empty; on an empty list Python's `levels[-1]` would raise,
which the `none` branch mirrors by returning the empty list.) -/
def compute_grid_levels (low_price high_price step_percent : ℚ) : List ℚ :=
  if low_price ≤ 0 ∨ high_price ≤ 0 ∨ high_price ≤ low_price then []
  else
    let multiplier := 1 + step_percent / 100
    let bound := high_price + 1/10^18
    let levels := growLevels multiplier bound
      (gridFuel low_price multiplier bound) low_price
    match levels.getLast? with
    | some l => if l < high_price then levels ++ [high_price] else levels
    | none => levels

/-- Unfolding equation: no fuel, no levels. -/
theorem growLevels_zero (f bound p : ℚ) : growLevels f bound 0 p = [] := rfl

/-- Unfolding equation of the loop body. -/
theorem growLevels_succ (f bound : ℚ) (n : ℕ) (p : ℚ) :
    growLevels f bound (n+1) p =
      if p ≤ bound then p :: growLevels f bound n (p * f) else [] := rfl

/-- Once the level exceeds the bound the loop stops regardless of fuel. -/
theorem growLevels_stop (f bound : ℚ) (n : ℕ) (p : ℚ) (h : ¬ p ≤ bound) :
    growLevels f bound n p = [] := by
  cases n with
  | zero => rfl
  | succ m => rw [growLevels_succ, if_neg h]

/-- The loop never emits more levels than its fuel allows. -/
theorem growLevels_length (f bound : ℚ) :
    ∀ (n : ℕ) (p : ℚ), (growLevels f bound n p).length ≤ n := by
  intro n
  induction n with
  | zero => intro p; simp [growLevels]
  | succ m ih =>
    intro p
    by_cases hp : p ≤ bound
    · simpa [growLevels, hp] using Nat.succ_le_succ (ih (p * f))
    · simp [growLevels, hp]

/-- Every emitted level respects the loop bound. -/
theorem growLevels_le_bound (f bound : ℚ) :
    ∀ (n : ℕ) (p : ℚ) (x : ℚ), x ∈ growLevels f bound n p → x ≤ bound := by
  intro n
  induction n with
  | zero => intro p x hx; simp [growLevels] at hx
  | succ m ih =>
    intro p x hx
    by_cases hp : p ≤ bound
    · simp only [growLevels, if_pos hp, List.mem_cons] at hx
      rcases hx with rfl | hx
      · exact hp
      · exact ih (p * f) x hx
    · simp [growLevels, hp] at hx

/-- The head of a loop output is the starting level. -/
theorem growLevels_head (f bound : ℚ) (n : ℕ) (p : ℚ) (hn : 0 < n)
    (hp : p ≤ bound) : (growLevels f bound n p).head? = some p := by
  cases n with
  | zero => exact absurd hn (lt_irrefl 0)
  | succ m => simp [growLevels, hp]

/-- Anything in the head of a loop output equals the starting level. -/
theorem growLevels_head_eq (f bound : ℚ) (n : ℕ) (p : ℚ) :
    ∀ x ∈ (growLevels f bound n p).head?, x = p := by
  cases n with
  | zero => simp [growLevels]
  | succ m =>
    by_cases hp : p ≤ bound
    · simp [growLevels, hp]
    · simp [growLevels, hp]

/-- The loop output is strictly increasing (each level is the previous one
times `f > 1`, from a positive start). -/
theorem growLevels_chain (f bound : ℚ) (hf : 1 < f) :
    ∀ (n : ℕ) (p : ℚ), 0 < p → (growLevels f bound n p).Chain' (· < ·) := by
  intro n
  induction n with
  | zero => intro p _; simp [growLevels]
  | succ m ih =>
    intro p hp
    by_cases hpb : p ≤ bound
    · rw [growLevels, if_pos hpb]
      rw [List.chain'_cons']
      refine ⟨?_, ih (p * f) (mul_pos hp (lt_trans one_pos hf))⟩
      intro y hy
      have hy2 := growLevels_head_eq f bound m (p * f) y hy
      rw [hy2]
      exact lt_mul_of_one_lt_right hp hf
    · rw [growLevels, if_neg hpb]
      simp

/-- Prepending keeps a known last element. -/
theorem getLast?_cons_of_some {α : Type} {l : List α} {a x : α}
    (h : l.getLast? = some x) : (a :: l).getLast? = some x := by
  cases l with
  | nil => simp at h
  | cons b t => rw [List.getLast?_cons_cons]; exact h

/-- With enough fuel (`bound < p * f ^ n`) the loop ends because the
condition fails: either no level was emitted and the start already exceeds
the bound, or the last emitted level `l` satisfies `l ≤ bound < l * f`. -/
theorem growLevels_last (f bound : ℚ) (hf : 1 < f) :
    ∀ (n : ℕ) (p : ℚ), 0 < p → bound < p * f ^ n →
      (growLevels f bound n p = [] ∧ bound < p)
      ∨ (∃ l, (growLevels f bound n p).getLast? = some l
          ∧ l ≤ bound ∧ bound < l * f) := by
  intro n
  induction n with
  | zero =>
    intro p hp hbound
    left
    constructor
    · rfl
    · simpa using hbound
  | succ m ih =>
    intro p hp hbound
    by_cases hpb : p ≤ bound
    · right
      have hrec := ih (p * f) (mul_pos hp (lt_trans one_pos hf))
        (by rw [mul_assoc, ← pow_succ']; exact hbound)
      rcases hrec with ⟨hnil, hlt⟩ | ⟨l, hlast, hle, hgt⟩
      · refine ⟨p, ?_, hpb, hlt⟩
        rw [growLevels, if_pos hpb, hnil]
        rfl
      · refine ⟨l, ?_, hle, hgt⟩
        rw [growLevels, if_pos hpb]
        exact getLast?_cons_of_some hlast
    · left
      rw [growLevels, if_neg hpb]
      exact ⟨rfl, lt_of_not_le hpb⟩

/-- C4 counterexample: `geom_levels(1, 10, 100)` produces `[1, 2, 4, 8]` —
its last element 8 is not `high = 10`, and misses it by 2, far beyond the
`1e-9`-relative tolerance; so the hard-capped generator does not satisfy
"last element equals high (within epsilon/tick tolerance)". -/
theorem geom_levels_last_not_high :
    geom_levels 1 10 100 = [1, 2, 4, 8]
    ∧ (geom_levels 1 10 100).getLast? = some 8
    ∧ (8 : ℚ) ≠ 10
    ∧ (10 : ℚ) * (1/10^9) < 10 - 8 := by
  have heval : geom_levels 1 10 100 = [1, 2, 4, 8] := by
    rw [geom_levels]
    rw [show (5001:ℕ) = 5000+1 from rfl, growLevels_succ, if_pos (by norm_num)]
    rw [show (5000:ℕ) = 4999+1 from rfl, growLevels_succ, if_pos (by norm_num)]
    rw [show (4999:ℕ) = 4998+1 from rfl, growLevels_succ, if_pos (by norm_num)]
    rw [show (4998:ℕ) = 4997+1 from rfl, growLevels_succ, if_pos (by norm_num)]
    rw [growLevels_stop _ _ _ _ (by norm_num)]
    norm_num
  refine ⟨heval, ?_, by norm_num, by norm_num⟩
  rw [heval]
  rfl

/-- C4 (amended): each generator satisfies part of the claim.  For all
`0 < low < high` and `stepPct > 0`: `geom_levels` is strictly increasing,
starts at `low`, is hard-capped at 5001 levels (bounded even for `stepPct`
near 0) and stays `≤ high * (1 + 1e-9)`, but its last element need not
equal `high`; `compute_grid_levels` is strictly increasing, starts at `low`
and ends at a level within `[high, high + 1e-18]`, but runs without an
iteration cap. -/
theorem grid_generators_spec (low high step : ℚ) (hl : 0 < low)
    (hlh : low < high) (hs : 0 < step) :
    ((geom_levels low high step).head? = some low
      ∧ (geom_levels low high step).Chain' (· < ·)
      ∧ (geom_levels low high step).length ≤ 5001
      ∧ ∀ x ∈ geom_levels low high step, x ≤ high * (1 + 1/10^9))
    ∧ ((compute_grid_levels low high step).head? = some low
      ∧ (compute_grid_levels low high step).Chain' (· < ·)
      ∧ ∃ l, (compute_grid_levels low high step).getLast? = some l
          ∧ high ≤ l ∧ l ≤ high + 1/10^18) := by
  have hhigh : 0 < high := lt_trans hl hlh
  have hf : 1 < 1 + step / 100 := by linarith
  constructor
  · -- geom_levels
    have hbound : low ≤ high * (1 + 1/10^9) := by nlinarith
    refine ⟨growLevels_head _ _ 5001 low (by norm_num) hbound,
      growLevels_chain _ _ hf 5001 low hl,
      growLevels_length _ _ 5001 low,
      fun x hx => growLevels_le_bound _ _ 5001 low x hx⟩
  · -- compute_grid_levels
    have hguard : ¬(low ≤ 0 ∨ high ≤ 0 ∨ high ≤ low) := by
      simp only [not_or, not_le]
      exact ⟨hl, hhigh, hlh⟩
    have hcond : 0 < low ∧ 1 < 1 + step / 100 := ⟨hl, hf⟩
    have hfuel : high + 1/10^18 <
        low * (1 + step / 100) ^ gridFuel low (1 + step / 100) (high + 1/10^18) := by
      rw [gridFuel, dif_pos hcond]
      exact Nat.find_spec (grid_loop_terminates _ hcond.1 hcond.2)
    have hlow_le : low ≤ high + 1/10^18 := by linarith
    have hlast := growLevels_last (1 + step / 100) (high + 1/10^18) hf
      (gridFuel low (1 + step / 100) (high + 1/10^18)) low hl hfuel
    rcases hlast with ⟨hnil, hlt⟩ | ⟨l, hlast, hle, hgt⟩
    · linarith
    · have hne : growLevels (1 + step / 100) (high + 1/10^18)
          (gridFuel low (1 + step / 100) (high + 1/10^18)) low ≠ [] := by
        intro h
        rw [h] at hlast
        simp at hlast
      have hfuel_pos : 0 < gridFuel low (1 + step / 100) (high + 1/10^18) := by
        rcases Nat.eq_zero_or_pos (gridFuel low (1 + step / 100) (high + 1/10^18))
          with h0 | hpos
        · rw [h0] at hne
          exact absurd (growLevels_zero _ _ _) hne
        · exact hpos
      have hhead : (growLevels (1 + step / 100) (high + 1/10^18)
          (gridFuel low (1 + step / 100) (high + 1/10^18)) low).head? = some low :=
        growLevels_head _ _ _ low hfuel_pos hlow_le
      have hchain : (growLevels (1 + step / 100) (high + 1/10^18)
          (gridFuel low (1 + step / 100) (high + 1/10^18)) low).Chain' (· < ·) :=
        growLevels_chain _ _ hf _ low hl
      have hcgl : compute_grid_levels low high step =
          (if l < high then
            growLevels (1 + step / 100) (high + 1/10^18)
              (gridFuel low (1 + step / 100) (high + 1/10^18)) low ++ [high]
          else
            growLevels (1 + step / 100) (high + 1/10^18)
              (gridFuel low (1 + step / 100) (high + 1/10^18)) low) := by
        rw [compute_grid_levels, if_neg hguard]
        simp only [hlast]
      by_cases hlh2 : l < high
      · rw [hcgl, if_pos hlh2]
        refine ⟨?_, ?_, high, ?_, le_refl high, by linarith⟩
        · cases hcase : growLevels (1 + step / 100) (high + 1/10^18)
              (gridFuel low (1 + step / 100) (high + 1/10^18)) low with
          | nil => exact absurd hcase hne
          | cons a t =>
            rw [hcase] at hhead
            simpa using hhead
        · refine List.Chain'.append hchain (by simp) ?_
          intro x hx y hy
          rw [hlast] at hx
          rw [Option.mem_def, Option.some.injEq] at hx
          simp only [List.head?_cons, Option.mem_def, Option.some.injEq] at hy
          subst hx
          subst hy
          exact hlh2
        · simp [List.getLast?_concat]
      · rw [hcgl, if_neg hlh2]
        exact ⟨hhead, hchain, l, hlast, not_lt.mp hlh2, hle⟩

/-- Witness for C4 at `low = 1`, `high = 2`, `step = 100`. -/
theorem grid_generators_spec_witness :
    ((geom_levels 1 2 100).head? = some 1
      ∧ (geom_levels 1 2 100).Chain' (· < ·)
      ∧ (geom_levels 1 2 100).length ≤ 5001
      ∧ ∀ x ∈ geom_levels 1 2 100, x ≤ 2 * (1 + 1/10^9))
    ∧ ((compute_grid_levels 1 2 100).head? = some 1
      ∧ (compute_grid_levels 1 2 100).Chain' (· < ·)
      ∧ ∃ l, (compute_grid_levels 1 2 100).getLast? = some l
          ∧ 2 ≤ l ∧ l ≤ 2 + 1/10^18) :=
  grid_generators_spec 1 2 100 (by norm_num) (by norm_num) (by norm_num)

/-! ### profit_watcher.py: FIFO ledger and live tail loop -/

/-- An inventory lot `{"qty": ..., "price": ...}`. -/
structure Lot where
  qty : ℚ
  price : ℚ
deriving Repr, DecidableEq

/-- The dust threshold `1e-12` used by `fifo_match_sell`. -/
def EPS : ℚ := 1 / 10^12

/-- `realized_profit_on_match` (profit_watcher.py lines 136-140): gross
spread times quantity, minus fees on both sides. -/
def realized_profit_on_match (buy_price sell_price qty fee_rate_each_side : ℚ) : ℚ :=
  (sell_price - buy_price) * qty -
    (buy_price * qty + sell_price * qty) * fee_rate_each_side

/-- Loop body of `fifo_match_sell`, as a recursion over the inventory list.
Arguments: remaining sell quantity and accumulated realized profit; returns
(realized, remaining, inventory).  The three cases mirror the `while`:
if `remaining ≤ 1e-12` or the queue is empty the loop exits; otherwise the
oldest lot is consumed by `take = min remaining lot.qty`; a lot left with
`≤ 1e-12` is popped and the loop continues; a lot left with more than that
means `take = remaining` was taken (were `take = lot.qty`, the residual
would be 0 ≤ 1e-12), so the next condition check fails and the loop exits
with the shrunken lot at the front. -/
def fifoGo (sell_price fee_rate_each_side : ℚ) :
    List Lot → ℚ → ℚ → ℚ × ℚ × List Lot
  | [], remaining, realized => (realized, remaining, [])
  | lot :: rest, remaining, realized =>
    if EPS < remaining then
      let take := min remaining lot.qty
      let realized2 := realized +
        realized_profit_on_match lot.price sell_price take fee_rate_each_side
      let lot_qty2 := lot.qty - take
      let remaining2 := remaining - take
      if lot_qty2 ≤ EPS then fifoGo sell_price fee_rate_each_side rest remaining2 realized2
      else (realized2, remaining2, ⟨lot_qty2, lot.price⟩ :: rest)
    else (realized, remaining, lot :: rest)

/-- `fifo_match_sell(inventory, sell_price, qty, fee_rate_each_side)`
(profit_watcher.py lines 143-161).  Python mutates `inventory` in place and
returns `(realized, matched)`; here the updated inventory is returned as the
third component, and `matched = qty - remaining`. -/
def fifo_match_sell (inventory : List Lot) (sell_price qty fee_rate_each_side : ℚ) :
    ℚ × ℚ × List Lot :=
  let out := fifoGo sell_price fee_rate_each_side inventory qty 0
  (out.1, qty - out.2.1, out.2.2)

/-- Total quantity held in an inventory. -/
def invTotal (inventory : List Lot) : ℚ :=
  (inventory.map Lot.qty).sum

/-- Unfolding equation: empty inventory ends the loop. -/
theorem fifoGo_nil (p fee rem real : ℚ) :
    fifoGo p fee [] rem real = (real, rem, []) := rfl

/-- Unfolding equation of the matching loop body. -/
theorem fifoGo_cons (p fee : ℚ) (lot : Lot) (rest : List Lot) (rem real : ℚ) :
    fifoGo p fee (lot :: rest) rem real =
      if EPS < rem then
        (if lot.qty - min rem lot.qty ≤ EPS then
          fifoGo p fee rest (rem - min rem lot.qty)
            (real + realized_profit_on_match lot.price p (min rem lot.qty) fee)
        else
          (real + realized_profit_on_match lot.price p (min rem lot.qty) fee,
            rem - min rem lot.qty,
            ⟨lot.qty - min rem lot.qty, lot.price⟩ :: rest))
      else (real, rem, lot :: rest) := rfl

/-- invTotal of the empty inventory. -/
theorem invTotal_nil : invTotal [] = 0 := rfl

/-- invTotal of a cons. -/
theorem invTotal_cons (lot : Lot) (rest : List Lot) :
    invTotal (lot :: rest) = lot.qty + invTotal rest := by
  simp [invTotal]

/-- invTotal is nonnegative when all lots are. -/
theorem invTotal_nonneg (inv : List Lot) (h : ∀ l ∈ inv, 0 ≤ l.qty) :
    0 ≤ invTotal inv := by
  refine List.sum_nonneg ?_
  intro x hx
  obtain ⟨l, hl, rfl⟩ := List.mem_map.mp hx
  exact h l hl

/-- The dust threshold is positive. -/
theorem EPS_pos : 0 < EPS := by norm_num [EPS]

/-- C3: FIFO matching consumes lots oldest-first with the per-slice profit
formula `(p - lot.price) * matched - (lot.price + p) * matched * fee`.  On
inventory `[(1, 100), (1, 110)]`, a sell of 1.5 at 120 matches 1.0 from the
first lot and 0.5 from the second, realizes
`(120-100)*1 + (120-110)*0.5` minus the two-sided fees on each slice, and
leaves exactly one lot `(0.5, 110)`. -/
theorem fifo_match_sell_example (fee : ℚ) :
    (∀ bp sp q : ℚ, realized_profit_on_match bp sp q fee =
      (sp - bp) * q - (bp * q + sp * q) * fee)
    ∧ fifo_match_sell [⟨1, 100⟩, ⟨1, 110⟩] 120 (3/2) fee =
      (realized_profit_on_match 100 120 1 fee +
        realized_profit_on_match 110 120 (1/2) fee, 3/2, [⟨1/2, 110⟩])
    ∧ realized_profit_on_match 100 120 1 fee +
        realized_profit_on_match 110 120 (1/2) fee =
      ((120 - 100) * 1 + (120 - 110) * (1/2)) -
        ((100 * 1 + 120 * 1) * fee + (110 * (1/2) + 120 * (1/2)) * fee) := by
  refine ⟨fun bp sp q => rfl, ?_, ?_⟩
  · have h1 : min ((3:ℚ)/2) 1 = 1 := by norm_num [min_def]
    have h2 : min ((1:ℚ)/2) 1 = 1/2 := by norm_num [min_def]
    simp only [fifo_match_sell, fifoGo_cons, fifoGo_nil, h1, h2]
    norm_num [EPS]
  · simp only [realized_profit_on_match]
    ring

/-- C10 invariant of the matching loop, by induction on the inventory: the
remaining sell quantity stays within `[0, rem]` and shrinks by at most the
inventory total; the inventory total shrinks by the matched amount plus at
most `EPS` of dust per lot; all surviving lots stay above the threshold. -/
theorem fifoGo_spec (p fee : ℚ) :
    ∀ (inv : List Lot) (rem real : ℚ), 0 ≤ rem →
      (∀ l ∈ inv, EPS < l.qty) →
      0 ≤ (fifoGo p fee inv rem real).2.1
      ∧ (fifoGo p fee inv rem real).2.1 ≤ rem
      ∧ rem - (fifoGo p fee inv rem real).2.1 ≤ invTotal inv
      ∧ invTotal (fifoGo p fee inv rem real).2.2 ≤
          invTotal inv - (rem - (fifoGo p fee inv rem real).2.1)
      ∧ invTotal inv - (rem - (fifoGo p fee inv rem real).2.1)
          - EPS * inv.length ≤ invTotal (fifoGo p fee inv rem real).2.2
      ∧ ∀ l ∈ (fifoGo p fee inv rem real).2.2, EPS < l.qty := by
  intro inv
  induction inv with
  | nil =>
    intro rem real hrem _
    rw [fifoGo_nil]
    dsimp only
    simp only [invTotal_nil, List.length_nil]
    refine ⟨hrem, le_refl _, by linarith, by norm_num, by norm_num, by simp⟩
  | cons lot rest ih =>
    intro rem real hrem hlots
    have hlot : EPS < lot.qty := hlots lot (List.mem_cons_self _ _)
    have hrest : ∀ l ∈ rest, EPS < l.qty :=
      fun l hl => hlots l (List.mem_cons_of_mem _ hl)
    have hrest_nonneg : 0 ≤ invTotal rest :=
      invTotal_nonneg rest (fun l hl => le_of_lt (lt_trans EPS_pos (hrest l hl)))
    have hlen : ((lot :: rest).length : ℚ) = rest.length + 1 := by
      push_cast [List.length_cons]
      ring
    rw [fifoGo_cons]
    by_cases h1 : EPS < rem
    · rw [if_pos h1]
      have htr : min rem lot.qty ≤ rem := min_le_left _ _
      have htl : min rem lot.qty ≤ lot.qty := min_le_right _ _
      have htpos : 0 < min rem lot.qty :=
        lt_min (lt_trans EPS_pos h1) (lt_trans EPS_pos hlot)
      by_cases h2 : lot.qty - min rem lot.qty ≤ EPS
      · rw [if_pos h2]
        have hrec := ih (rem - min rem lot.qty)
          (real + realized_profit_on_match lot.price p (min rem lot.qty) fee)
          (by linarith) hrest
        obtain ⟨i1, i2, i3, i4, i5, i6⟩ := hrec
        refine ⟨i1, by linarith, ?_, ?_, ?_, i6⟩
        · rw [invTotal_cons]
          linarith
        · rw [invTotal_cons]
          linarith
        · rw [invTotal_cons, hlen]
          linarith
      · rw [if_neg h2]
        dsimp only
        have h2lt : EPS < lot.qty - min rem lot.qty := lt_of_not_le h2
        refine ⟨by linarith, by linarith, ?_, ?_, ?_, ?_⟩
        · rw [invTotal_cons]
          linarith
        · rw [invTotal_cons, invTotal_cons]
          simp only [Lot.mk.injEq]
          linarith
        · rw [invTotal_cons, invTotal_cons, hlen]
          dsimp only
          have hepslen : 0 ≤ EPS * (rest.length : ℚ) :=
            mul_nonneg (le_of_lt EPS_pos) (Nat.cast_nonneg _)
          have hEPS := EPS_pos
          linarith
        · intro l hl
          rcases List.mem_cons.mp hl with rfl | hl2
          · exact h2lt
          · exact hrest l hl2
    · rw [if_neg h1]
      dsimp only
      have hepslen2 : 0 ≤ EPS * ((lot :: rest).length : ℚ) :=
        mul_nonneg (le_of_lt EPS_pos) (Nat.cast_nonneg _)
      refine ⟨hrem, le_refl _, ?_, by linarith, by linarith, hlots⟩
      rw [invTotal_cons]
      linarith

/-- C10 counterexample: inventory `[(qty 1, price 100)]` (all lots above
`1e-12`), sell quantity `1 - 1e-13 > 0`.  The front lot is left with
residue `1e-13 ≤ 1e-12` and is popped, so the inventory total drops by 1
while the matched quantity is only `1 - 1e-13`: the total does not decrease
by exactly the matched quantity. -/
theorem fifo_match_sell_dust_lost :
    (∀ l ∈ [Lot.mk 1 100], EPS < l.qty)
    ∧ (0 : ℚ) < 1 - 1/10^13
    ∧ fifo_match_sell [⟨1, 100⟩] 120 (1 - 1/10^13) 0 =
      (realized_profit_on_match 100 120 (1 - 1/10^13) 0, 1 - 1/10^13, [])
    ∧ invTotal [] ≠ invTotal [Lot.mk 1 100] - (1 - 1/10^13) := by
  refine ⟨?_, by norm_num, ?_, ?_⟩
  · intro l hl
    rcases List.mem_singleton.mp hl with rfl
    norm_num [EPS]
  · have h1 : min ((1:ℚ) - 1/10^13) 1 = 1 - 1/10^13 := by norm_num [min_def]
    simp only [fifo_match_sell, fifoGo_cons, fifoGo_nil, h1]
    norm_num [EPS]
  · simp only [invTotal_nil, invTotal_cons]
    norm_num [invTotal_nil]

/-- C10 (amended): under the stated hypotheses (all lots above `1e-12`,
sell quantity positive) `fifo_match_sell` returns a matched quantity in
`[0, q]` that never exceeds the total inventory; the inventory total
decreases by at least the matched quantity and by at most the matched
quantity plus `1e-12` of dust per original lot; every surviving lot stays
above `1e-12`. -/
theorem fifo_match_sell_conservation (inv : List Lot) (p q fee : ℚ)
    (hinv : ∀ l ∈ inv, EPS < l.qty) (hq : 0 < q) :
    0 ≤ (fifo_match_sell inv p q fee).2.1
    ∧ (fifo_match_sell inv p q fee).2.1 ≤ q
    ∧ (fifo_match_sell inv p q fee).2.1 ≤ invTotal inv
    ∧ invTotal (fifo_match_sell inv p q fee).2.2 ≤
        invTotal inv - (fifo_match_sell inv p q fee).2.1
    ∧ invTotal inv - (fifo_match_sell inv p q fee).2.1 - EPS * inv.length ≤
        invTotal (fifo_match_sell inv p q fee).2.2
    ∧ ∀ l ∈ (fifo_match_sell inv p q fee).2.2, EPS < l.qty := by
  obtain ⟨i1, i2, i3, i4, i5, i6⟩ := fifoGo_spec p fee inv q 0 (le_of_lt hq) hinv
  simp only [fifo_match_sell]
  exact ⟨by linarith, by linarith, by linarith, by linarith, by linarith, i6⟩

/-- Witness for C10 on inventory `[(1, 100), (1, 110)]`, sell 1.5 at 120,
fee 0.001. -/
theorem fifo_match_sell_conservation_witness :
    0 ≤ (fifo_match_sell [⟨1, 100⟩, ⟨1, 110⟩] 120 (3/2) (1/1000)).2.1
    ∧ (fifo_match_sell [⟨1, 100⟩, ⟨1, 110⟩] 120 (3/2) (1/1000)).2.1 ≤ 3/2
    ∧ (fifo_match_sell [⟨1, 100⟩, ⟨1, 110⟩] 120 (3/2) (1/1000)).2.1 ≤
        invTotal [⟨1, 100⟩, ⟨1, 110⟩]
    ∧ invTotal (fifo_match_sell [⟨1, 100⟩, ⟨1, 110⟩] 120 (3/2) (1/1000)).2.2 ≤
        invTotal [⟨1, 100⟩, ⟨1, 110⟩] -
          (fifo_match_sell [⟨1, 100⟩, ⟨1, 110⟩] 120 (3/2) (1/1000)).2.1
    ∧ invTotal [⟨1, 100⟩, ⟨1, 110⟩] -
          (fifo_match_sell [⟨1, 100⟩, ⟨1, 110⟩] 120 (3/2) (1/1000)).2.1 -
          EPS * ([⟨1, 100⟩, ⟨1, 110⟩] : List Lot).length ≤
        invTotal (fifo_match_sell [⟨1, 100⟩, ⟨1, 110⟩] 120 (3/2) (1/1000)).2.2
    ∧ ∀ l ∈ (fifo_match_sell [⟨1, 100⟩, ⟨1, 110⟩] 120 (3/2) (1/1000)).2.2,
        EPS < l.qty :=
  fifo_match_sell_conservation [⟨1, 100⟩, ⟨1, 110⟩] 120 (3/2) (1/1000)
    (by intro l hl
        rcases List.mem_cons.mp hl with rfl | hl2
        · norm_num [EPS]
        · rcases List.mem_singleton.mp hl2 with rfl
          norm_num [EPS])
    (by norm_num)

/-- A trade from the exchange stream, with the fields read by
`process_trades_sequence`: `str(t.get("id"))`, side, price, amount. -/
structure Trade where
  id : String
  side : String
  price : ℚ
  amount : ℚ
deriving Repr, DecidableEq

/-- The watcher state persisted in `profit_watcher_state.json`. -/
structure WatcherState where
  last_trade_id : Option String
  inventory : List Lot
deriving Repr, DecidableEq

/-- Accumulator of the `process_trades_sequence` loop: the inventory, the
realized total, the matched-sell-trade count and the running last id. -/
structure TradeAcc where
  inventory : List Lot
  realized : ℚ
  sell_trades : ℕ
  last_id : Option String
deriving Repr, DecidableEq

/-- One iteration of the `for t in trades` loop of
`process_trades_sequence` (profit_watcher.py lines 196-213): skip unusable
trades, append buys to the inventory, FIFO-match sells; the running
`last_id` is set to the trade id in every case. -/
def processTrade (fee : ℚ) (acc : TradeAcc) (t : Trade) : TradeAcc :=
  if t.amount ≤ 0 ∨ t.price ≤ 0 then { acc with last_id := some t.id }
  else if t.side = "buy" then
    { acc with
        inventory := acc.inventory ++ [⟨t.amount, t.price⟩],
        last_id := some t.id }
  else if t.side = "sell" then
    let out := fifo_match_sell acc.inventory t.price t.amount fee
    { inventory := out.2.2,
      realized := acc.realized + out.1,
      sell_trades :=
        if 0 < out.2.1 then acc.sell_trades + 1 else acc.sell_trades,
      last_id := some t.id }
  else { acc with last_id := some t.id }

/-- `process_trades_sequence(trades, st, fee)` (profit_watcher.py lines
189-216): fold the trades into the state inventory, starting the realized
total and sell count at zero and the last id at the stored checkpoint. -/
def process_trades_sequence (fee : ℚ) (st : WatcherState)
    (trades : List Trade) : TradeAcc :=
  trades.foldl (processTrade fee) ⟨st.inventory, 0, 0, st.last_trade_id⟩

/-- The new-trade filter of `live_tail_loop` (profit_watcher.py lines
282-285): keep a trade when there is no checkpoint or its id string is
strictly greater than the checkpoint — Python string comparison, i.e.
lexicographic order on the characters. -/
def filterNewTrades (last_id : Option String) (all_trades : List Trade) :
    List Trade :=
  all_trades.filter (fun t =>
    match last_id with
    | none => true
    | some l => decide (l < t.id))

/-- One iteration of `live_tail_loop` (profit_watcher.py lines 272-310),
given the trades returned by `fetch_trades_window`: filter out ids at or
below the checkpoint; if nothing is new, sleep (state unchanged); otherwise
fold the new trades and store the new checkpoint (`new_last_id or last_id`:
a falsy — empty — id keeps the old checkpoint).  Returns the state to be
persisted, the realized total and the matched-sell count. -/
def livePollStep (fee : ℚ) (st : WatcherState) (all_trades : List Trade) :
    WatcherState × ℚ × ℕ :=
  let new_trades := filterNewTrades st.last_trade_id all_trades
  if new_trades.isEmpty then (st, 0, 0)
  else
    let acc := process_trades_sequence fee st new_trades
    let new_last : Option String :=
      match acc.last_id with
      | some s => if s = "" then st.last_trade_id else some s
      | none => st.last_trade_id
    (⟨new_last, acc.inventory⟩, acc.realized, acc.sell_trades)

/-- Every branch of the loop body stamps the trade id as the last id. -/
theorem processTrade_last (fee : ℚ) (acc : TradeAcc) (t : Trade) :
    (processTrade fee acc t).last_id = some t.id := by
  simp only [processTrade]
  split_ifs <;> rfl

/-- Folding a nonempty trade list leaves the last trade's id as checkpoint. -/
theorem foldl_processTrade_last (fee : ℚ) :
    ∀ (ts : List Trade) (tl : Trade) (acc : TradeAcc),
      ts.getLast? = some tl →
      (ts.foldl (processTrade fee) acc).last_id = some tl.id := by
  intro ts
  induction ts with
  | nil => intro tl acc h; simp at h
  | cons a ts2 ih =>
    intro tl acc h
    cases ts2 with
    | nil =>
      simp only [List.getLast?_singleton, Option.some.injEq] at h
      subst h
      rw [List.foldl_cons, List.foldl_nil]
      exact processTrade_last fee acc _
    | cons b ts3 =>
      rw [List.getLast?_cons_cons] at h
      rw [List.foldl_cons]
      exact ih tl _ h

/-- C9 counterexample: checkpoint `"99"`, new trade with id `"100"`.
Numerically 100 > 99, but the loop compares id STRINGS, and
`"100" > "99"` is false lexicographically, so the filter drops the trade
and the poll is a no-op: the trade is folded zero times, and since the
state is unchanged every later poll drops it again — not "exactly once". -/
theorem trade_100_dropped_after_checkpoint_99 :
    (99 : ℕ) < 100
    ∧ ¬ (("99" : String) < "100")
    ∧ filterNewTrades (some "99") [⟨"100", "buy", 1, 1⟩] = []
    ∧ livePollStep 0 ⟨some "99", []⟩ [⟨"100", "buy", 1, 1⟩] =
      (⟨some "99", []⟩, 0, 0) := by
  have hlt : ¬ (("99" : String) < "100") := by
    rw [String.lt_iff_toList_lt]
    decide
  have hfil : filterNewTrades (some "99") [⟨"100", "buy", 1, 1⟩] = [] := by
    simp only [filterNewTrades, List.filter_eq_nil]
    intro t ht
    rcases List.mem_singleton.mp ht with rfl
    simpa using hlt
  refine ⟨by norm_num, hlt, hfil, ?_⟩
  simp only [livePollStep, hfil, List.isEmpty_nil, if_true]

/-- C9 (amended): under the proviso that id strings compare consistently
with the stream order, the checkpoint gives exactly-once folding.  If every
delivered trade id is lexicographically above the checkpoint, the poll
folds exactly the delivered window (the filter keeps all of it), stores the
last trade's id as the new checkpoint, and any re-delivered window whose
ids are at or below that checkpoint folds nothing and changes nothing —
never twice.  (Without the proviso, trades are dropped: see the
counterexample, where id "100" is numerically newer but lexicographically
below checkpoint "99" and is folded zero times.) -/
theorem live_poll_exactly_once (fee : ℚ) (st : WatcherState) (l : String)
    (tl : Trade) (W W2 : List Trade)
    (hlast : st.last_trade_id = some l)
    (hgt : ∀ t ∈ W, l < t.id)
    (hW : W.getLast? = some tl)
    (hid : tl.id ≠ "")
    (hW2 : ∀ t ∈ W2, t.id ≤ tl.id) :
    filterNewTrades st.last_trade_id W = W
    ∧ (livePollStep fee st W).1.last_trade_id = some tl.id
    ∧ (livePollStep fee st W).1.inventory =
        (process_trades_sequence fee st W).inventory
    ∧ (livePollStep fee st W).2.1 = (process_trades_sequence fee st W).realized
    ∧ livePollStep fee (livePollStep fee st W).1 W2 =
      ((livePollStep fee st W).1, 0, 0) := by
  have hfil : filterNewTrades st.last_trade_id W = W := by
    rw [hlast, filterNewTrades]
    apply List.filter_eq_self.mpr
    intro t ht
    exact decide_eq_true (hgt t ht)
  have hne : W ≠ [] := by
    intro h
    rw [h] at hW
    simp at hW
  have hie : W.isEmpty = false := by
    cases W with
    | nil => exact absurd rfl hne
    | cons a t => rfl
  have hacc : (process_trades_sequence fee st W).last_id = some tl.id :=
    foldl_processTrade_last fee W tl _ hW
  have step1 : livePollStep fee st W =
      (⟨some tl.id, (process_trades_sequence fee st W).inventory⟩,
        (process_trades_sequence fee st W).realized,
        (process_trades_sequence fee st W).sell_trades) := by
    simp only [livePollStep, hfil, hie, Bool.false_eq_true, if_false, hacc,
      hid, ite_false]
  have hfil2 : filterNewTrades (some tl.id) W2 = [] := by
    rw [filterNewTrades]
    apply List.filter_eq_nil.mpr
    intro t ht
    simp only [decide_eq_true_eq]
    exact not_lt.mpr (hW2 t ht)
  refine ⟨hfil, ?_, ?_, ?_, ?_⟩
  · rw [step1]
  · rw [step1]
  · rw [step1]
  · rw [step1]
    simp only [livePollStep, hfil2, List.isEmpty_nil, if_true]

/-- Witness for C9: checkpoint "a", one delivered trade "b", then the same
window re-delivered. -/
theorem live_poll_exactly_once_witness :
    filterNewTrades (some "a") [⟨"b", "buy", 1, 1⟩] = [⟨"b", "buy", 1, 1⟩]
    ∧ (livePollStep 0 ⟨some "a", []⟩ [⟨"b", "buy", 1, 1⟩]).1.last_trade_id =
        some (Trade.mk "b" "buy" 1 1).id
    ∧ (livePollStep 0 ⟨some "a", []⟩ [⟨"b", "buy", 1, 1⟩]).1.inventory =
        (process_trades_sequence 0 ⟨some "a", []⟩ [⟨"b", "buy", 1, 1⟩]).inventory
    ∧ (livePollStep 0 ⟨some "a", []⟩ [⟨"b", "buy", 1, 1⟩]).2.1 =
        (process_trades_sequence 0 ⟨some "a", []⟩ [⟨"b", "buy", 1, 1⟩]).realized
    ∧ livePollStep 0 (livePollStep 0 ⟨some "a", []⟩ [⟨"b", "buy", 1, 1⟩]).1
        [⟨"b", "buy", 1, 1⟩] =
      ((livePollStep 0 ⟨some "a", []⟩ [⟨"b", "buy", 1, 1⟩]).1, 0, 0) :=
  live_poll_exactly_once 0 ⟨some "a", []⟩ "a" ⟨"b", "buy", 1, 1⟩
    [⟨"b", "buy", 1, 1⟩] [⟨"b", "buy", 1, 1⟩] rfl
    (by intro t ht
        rcases List.mem_singleton.mp ht with rfl
        rw [String.lt_iff_toList_lt]
        decide)
    rfl
    (by decide)
    (by intro t ht
        rcases List.mem_singleton.mp ht with rfl
        exact le_refl _)

end DogeBot
